import Mathlib

/-!
Shallow embedding of the dnsaq DNS enumerator (`main.go`) and verification of
its specification claims.

The network and file system are modelled as explicit inputs:
* one DNS exchange against a resolver endpoint either fails at the transport
  level (`err != nil` in Go) or completes with a response carrying a response
  code and an answer section;
* `Resolve` receives the list of per-endpoint exchange outcomes, in the
  endpoint list order, and folds over it exactly like the Go loop;
* file contents are lists of lines; the goroutine/channel machinery of the
  dispatch loops is sequentialized (each dispatched worker runs at its
  dispatch point), which preserves per-dispatch emission counts and
  result provenance.
-/

namespace Dnsaq

/-- One record of a DNS answer section: an A record with its address string
(`a.A.String()` in Go), or a record of any other type. -/
inductive DnsRecord where
  | A (ip : String)
  | Other
  deriving DecidableEq, Repr

/-- A completed DNS response: its response code (`Rcode`, 0 = success) and its
answer section. -/
structure DnsResponse where
  rcode : Nat
  answer : List DnsRecord
  deriving DecidableEq, Repr

/-- Outcome of `client.Exchange` against one resolver endpoint: a
transport-level error, or a completed exchange with a response. -/
inductive ExchangeResult where
  | transportError
  | completed (resp : DnsResponse)
  deriving DecidableEq, Repr

/-- The two errors `Resolve` can return: `"DNS error: %v"` for a non-success
response code, and `"all resolvers failed"`. -/
inductive ResolveErr where
  | dnsError (rcode : Nat)
  | allResolversFailed
  deriving DecidableEq, Repr

/-- `strings.TrimSpace`: strip leading and trailing whitespace from a
string. Modelled structurally over the character list so that it evaluates
inside the kernel. -/
def trimString (s : String) : String :=
  ⟨(((s.data.dropWhile Char.isWhitespace).reverse).dropWhile Char.isWhitespace).reverse⟩

/-- `strings.HasPrefix(s, "#")`. -/
def startsWithHash (s : String) : Bool :=
  match s.data with
  | '#' :: _ => true
  | _ => false

/-- `strings.Contains(s, ":")`. -/
def containsColon (s : String) : Bool :=
  s.data.any (fun c => c == ':')

/-- `strings.Split` for a one-character separator, on the character list:
always at least one group, a new group after every separator occurrence. -/
def splitCharList (sep : Char) : List Char → List (List Char)
  | [] => [[]]
  | c :: rest =>
    if c == sep then [] :: splitCharList sep rest
    else match splitCharList sep rest with
      | [] => [[c]]
      | g :: gs => (c :: g) :: gs

/-- `strings.Split(s, sep)` for a one-character separator. -/
def splitString (s : String) (sep : Char) : List String :=
  (splitCharList sep s.data).map (fun cs => ⟨cs⟩)

/-- The A-record extraction loop of `Resolve` (`main.go:114-119`): collect
`a.A.String()` for each answer record that is an A record, in answer order. -/
def extractA : List DnsRecord → List String
  | [] => []
  | DnsRecord.A ip :: rest => ip :: extractA rest
  | DnsRecord.Other :: rest => extractA rest

/-- The resolver loop of `Resolve` (`main.go:101-123`), as a function of the
per-endpoint exchange outcomes in endpoint order: a transport error moves to
the next endpoint; a completed exchange is terminal — a non-success response
code returns a DNS error, a success code returns the extracted A records;
an exhausted list returns the all-resolvers-failed error. -/
def Resolve : List ExchangeResult → Except ResolveErr (List String)
  | [] => Except.error ResolveErr.allResolversFailed
  | ExchangeResult.transportError :: rest => Resolve rest
  | ExchangeResult.completed resp :: _ =>
      if resp.rcode ≠ 0 then Except.error (ResolveErr.dnsError resp.rcode)
      else Except.ok (extractA resp.answer)

/-- Number of endpoints `Resolve` contacts (one `client.Exchange` call each):
every endpoint up to and including the first completed exchange. -/
def resolveContacted : List ExchangeResult → Nat
  | [] => 0
  | ExchangeResult.transportError :: rest => 1 + resolveContacted rest
  | ExchangeResult.completed _ :: _ => 1

/-- A network: for each queried name, the list of per-endpoint exchange
outcomes `Resolve` would observe against the configured resolvers, in
endpoint order. -/
def Network : Type := String → List ExchangeResult

/-- The map write `d.wildcardIPs[ip] = true`: the wildcard set is modelled as
a duplicate-free list of its keys. -/
def insertIP (w : List String) (ip : String) : List String :=
  if ip ∈ w then w else w ++ [ip]

/-- The loop `for _, ip := range ips { d.wildcardIPs[ip] = true }` of
`DetectWildcard` (`main.go:144-146`). -/
def addIPs (w : List String) (ips : List String) : List String :=
  ips.foldl insertIP w

/-- The `testSubdomains` slice of `DetectWildcard` (`main.go:133-137`): one
time+pid-derived random label and two fixed decoy labels. -/
def probeLabels (randLabel : String) : List String :=
  [randLabel, "probably-does-not-exist-123", "test-subdomain-wildcard-456"]

/-- Body of the `DetectWildcard` probe loop (`main.go:139-149`): resolve
`sub + "." + domain` and, when it succeeds with a non-empty address list,
add all returned addresses to the set. -/
def probeStep (net : Network) (domain : String) (acc : List String)
    (sub : String) : List String :=
  match Resolve (net (sub ++ "." ++ domain)) with
  | Except.ok ips => if 0 < ips.length then addIPs acc ips else acc
  | Except.error _ => acc

/-- `DetectWildcard` (`main.go:127-154`): a no-op when wildcard checking is
disabled; otherwise run the probe loop over the test subdomains and return
the updated set (the shared `wildcardIPs` map). -/
def DetectWildcard (wildcardCheck : Bool) (net : Network)
    (randLabel domain : String) (w : List String) : List String :=
  if !wildcardCheck then w
  else (probeLabels randLabel).foldl (probeStep net domain) w

/-- `isWildcardResponse` (`main.go:167-181`): false when the wildcard set is
empty; otherwise true iff some address of the list is in the set. -/
def isWildcardResponse (w : List String) (ips : List String) : Bool :=
  if w.length = 0 then false
  else ips.any (fun ip => w.contains ip)

/-- `ProcessDomain` (`main.go:192-210`), with its single possible channel send
as an `Option`: resolve the domain; on error emit nothing; on success emit
nothing when wildcard checking is enabled and the address set is flagged,
otherwise emit `"<name> [<ip1>, <ip2>, ...]"`. -/
def ProcessDomain (wildcardCheck : Bool) (w : List String)
    (net : Network) (domain : String) : Option String :=
  match Resolve (net domain) with
  | Except.error _ => none
  | Except.ok ips =>
    if wildcardCheck && isWildcardResponse w ips then none
    else some (domain ++ " [" ++ String.intercalate ", " ips ++ "]")

/-- Base-domain extraction of `EnumerateFromReader` (`main.go:235-239`): the
last two dot-separated labels, when the name has at least two. -/
def baseDomainOf (domain : String) : Option String :=
  match (splitString domain '.').reverse with
  | tld :: sld :: _ => some (sld ++ "." ++ tld)
  | _ => none

/-- State threaded through the dispatch loop: the shared wildcard set and the
lines emitted so far through the results channel. -/
structure EnumState where
  w : List String
  emitted : List String
  deriving Repr

/-- The wildcard set after the per-line probe of `EnumerateFromReader`
(`main.go:234-240`): when checking is enabled and the name has a derivable
base domain, run `DetectWildcard` for that base; otherwise unchanged. -/
def enumWSet (wildcardCheck : Bool) (net : Network) (randLabel : String)
    (w : List String) (domain : String) : List String :=
  if wildcardCheck then
    match baseDomainOf domain with
    | some b => DetectWildcard wildcardCheck net randLabel b w
    | none => w
  else w

/-- One iteration of the `EnumerateFromReader` scanner loop
(`main.go:227-248`): trim the line, skip it when blank, otherwise run the
wildcard probe for its base domain (when enabled) and dispatch one worker,
whose emission (if any) is appended. The concurrent worker is sequentialized
at its dispatch point. -/
def enumStep (wildcardCheck : Bool) (net : Network) (randLabel : String)
    (st : EnumState) (line : String) : EnumState :=
  let domain := trimString line
  if domain = "" then st
  else
    let w1 := enumWSet wildcardCheck net randLabel st.w domain
    match ProcessDomain wildcardCheck w1 net domain with
    | some r => { w := w1, emitted := st.emitted ++ [r] }
    | none => { w := w1, emitted := st.emitted }

/-- `EnumerateFromReader` (`main.go:213-252`) on the list of input lines,
starting from an empty wildcard set and no emissions. -/
def EnumerateFromReader (wildcardCheck : Bool) (net : Network)
    (randLabel : String) (lines : List String) : EnumState :=
  lines.foldl (enumStep wildcardCheck net randLabel) ⟨[], []⟩

/-- The names the streaming dispatch loop dispatches one worker for: each
line trimmed, blank lines skipped. -/
def dispatchedNames (lines : List String) : List String :=
  (lines.map trimString).filter (fun l => l ≠ "")

/-- One iteration of the resolver-list loader loop of
`LoadResolversFromFile` (`main.go:77-86`): trim the line; keep it unless it
is blank or starts with `#`; append `":53"` when it contains no colon. -/
def resolverLineStep (resolvers : List String) (line : String) : List String :=
  let resolver := trimString line
  if resolver ≠ "" && !(startsWithHash resolver) then
    resolvers ++ [if containsColon resolver then resolver else resolver ++ ":53"]
  else resolvers

/-- The resolver-list loader loop over a whole file. -/
def LoadResolversFromFileLines (lines : List String) : List String :=
  lines.foldl resolverLineStep []

/-- Declarative companion of one loader iteration, following the spec words:
drop blank and `#` lines, normalize bare hosts to port 53. -/
def normalizeEntry (r : String) : Option String :=
  if r ≠ "" && !(startsWithHash r) then
    some (if containsColon r then r else r ++ ":53")
  else none

/-- One iteration of the wordlist loop of `Bruteforce` (`main.go:277-290`):
trim the line, skip it only when blank, and otherwise dispatch
`sub + "." + domain`. -/
def bruteStep (domain : String) (acc : List String) (line : String) : List String :=
  let sub := trimString line
  if sub = "" then acc else acc ++ [sub ++ "." ++ domain]

/-- The names the brute-force loop dispatches, in wordlist order. -/
def bruteforceNames (lines : List String) (domain : String) : List String :=
  lines.foldl (bruteStep domain) []

/-- One iteration of the `Bruteforce` dispatch loop (`main.go:277-290`),
tracking the emitted result lines: trim the wordlist line, skip it when
blank, otherwise dispatch one worker for `sub + "." + domain`, whose
emission (if any) is appended. The wildcard set is fixed for the whole loop
— `Bruteforce` probes once up front and the loop never mutates it. -/
def bruteforceStep (wildcardCheck : Bool) (w : List String) (net : Network)
    (domain : String) (emitted : List String) (line : String) : List String :=
  let sub := trimString line
  if sub = "" then emitted
  else
    match ProcessDomain wildcardCheck w net (sub ++ "." ++ domain) with
    | some r => emitted ++ [r]
    | none => emitted

/-- `Bruteforce` (`main.go:255-298`) on the wordlist lines, as far as the
result lines sent to the results channel are observable: one up-front
`DetectWildcard` run against the base domain starting from the fresh
enumerator's empty wildcard set, then the dispatch loop over the wordlist,
with each concurrent worker sequentialized at its dispatch point. -/
def Bruteforce (wildcardCheck : Bool) (net : Network)
    (randLabel domain : String) (lines : List String) : List String :=
  let w := DetectWildcard wildcardCheck net randLabel domain []
  lines.foldl (bruteforceStep wildcardCheck w net domain) []

/-- Readability outcome of opening and scanning a file. -/
inductive FileRead where
  | unreadable
  | lines (ls : List String)

/-- The inputs `main` (`main.go:300-375`) consumes: flag values, the file
system, the standard input state, and the network. -/
structure MainEnv where
  versionFlag : Bool
  resolverFile : Option FileRead
  resolverList : String
  outputFileGiven : Bool
  outputFileOpens : Bool
  domainFlag : String
  wordlistGiven : Bool
  wordlist : FileRead
  wildcardCheck : Bool
  stdinPiped : Bool
  stdinLines : List String
  net : Network
  randLabel : String

/-- Observable outcome of one run of `main`: the process exit code, whether a
message was printed to the error stream, and how many `Resolve` calls were
made before the process exited. -/
structure MainOutcome where
  exitCode : Nat
  errReported : Bool
  resolveCallsBeforeExit : Nat
  deriving DecidableEq, Repr

/-- The resolver list `main` ends up with (`main.go:321-331`): loaded from the
resolver file when the `-r` flag is given (`none` on a read error), otherwise
the comma-split of the `-resolvers` flag. -/
def loadedResolvers (env : MainEnv) : Option (List String) :=
  match env.resolverFile with
  | some FileRead.unreadable => none
  | some (FileRead.lines ls) => some (LoadResolversFromFileLines ls)
  | none => some (splitString env.resolverList ',')

/-- `Resolve` calls made while streaming: one per dispatched name, plus three
wildcard probes per non-blank line with a derivable base domain when checking
is enabled. -/
def streamResolveCalls (wildcardCheck : Bool) (lines : List String) : Nat :=
  (dispatchedNames lines).length +
    (dispatchedNames lines).foldl (fun n d =>
      n + (if wildcardCheck then
             match baseDomainOf d with
             | some _ => (probeLabels "").length
             | none => 0
           else 0)) 0

/-- Control flow of `main` (`main.go:300-375`) together with the `Bruteforce`
entry (`main.go:255-263`), as far as exit codes, error-stream reporting and
resolution counting are observable: version exits 0; a resolver-file read
error, an empty resolver list, and an output-file open error exit 1 with an
error report and no resolution; with a domain and a wordlist, `Bruteforce`
first runs the wildcard probes, then opens the wordlist — on a read error it
reports and returns, and the process exits 0; otherwise piped stdin is
enumerated and exits 0, and a terminal with no piped input prints usage and
exits 1. -/
def mainRun (env : MainEnv) : MainOutcome :=
  if env.versionFlag then ⟨0, false, 0⟩
  else
    match loadedResolvers env with
    | none => ⟨1, true, 0⟩
    | some resolvers =>
      if resolvers.length = 0 then ⟨1, true, 0⟩
      else if env.outputFileGiven && !env.outputFileOpens then ⟨1, true, 0⟩
      else if env.domainFlag ≠ "" && env.wordlistGiven then
        let probes := if env.wildcardCheck then (probeLabels env.randLabel).length else 0
        match env.wordlist with
        | FileRead.unreadable => ⟨0, true, probes⟩
        | FileRead.lines ls =>
            ⟨0, false, probes + (bruteforceNames ls env.domainFlag).length⟩
      else if env.stdinPiped then
        ⟨0, false, streamResolveCalls env.wildcardCheck env.stdinLines⟩
      else ⟨1, true, 0⟩

end Dnsaq

namespace Dnsaq

/-- Skipping a block of transport errors leaves both the result and (up to the
count of the skipped block) the contacted count of `Resolve` unchanged. -/
theorem resolve_skip_transport (pre rest : List ExchangeResult)
    (h : ∀ r ∈ pre, r = ExchangeResult.transportError) :
    Resolve (pre ++ rest) = Resolve rest
    ∧ resolveContacted (pre ++ rest) = pre.length + resolveContacted rest := by
  induction pre with
  | nil => simp
  | cons a pre ih =>
    have ha : a = ExchangeResult.transportError := h a (List.mem_cons_self a pre)
    have h' : ∀ r ∈ pre, r = ExchangeResult.transportError :=
      fun r hr => h r (List.mem_cons_of_mem a hr)
    obtain ⟨ih1, ih2⟩ := ih h'
    subst ha
    constructor
    · simpa [Resolve] using ih1
    · simp [resolveContacted, ih2]
      omega

/-- If every exchange fails at the transport level, `Resolve` returns the
all-resolvers-failed error. -/
theorem resolve_all_transport (rs : List ExchangeResult)
    (h : ∀ r ∈ rs, r = ExchangeResult.transportError) :
    Resolve rs = Except.error ResolveErr.allResolversFailed := by
  have := (resolve_skip_transport rs [] h).1
  simpa using this

/-- `Resolve` makes at most one pass: it contacts no more endpoints than the
list has. -/
theorem resolveContacted_le (rs : List ExchangeResult) :
    resolveContacted rs ≤ rs.length := by
  induction rs with
  | nil => simp [resolveContacted]
  | cons a rest ih =>
    cases a
    · simp [resolveContacted]; omega
    · simp [resolveContacted]

/-- C1: `Resolve` tries resolver endpoints in list order; every endpoint
before the first completed exchange fails at the transport level and is
skipped without surfacing an error, the first completed exchange is terminal
(the outcome depends only on its response, never on later endpoints), and the
endpoints after it are never contacted. -/
theorem resolve_failover_order (pre post : List ExchangeResult) (resp : DnsResponse)
    (h : ∀ r ∈ pre, r = ExchangeResult.transportError) :
    Resolve (pre ++ ExchangeResult.completed resp :: post)
      = Resolve (pre ++ [ExchangeResult.completed resp])
    ∧ Resolve (pre ++ ExchangeResult.completed resp :: post)
      = (if resp.rcode ≠ 0 then Except.error (ResolveErr.dnsError resp.rcode)
         else Except.ok (extractA resp.answer))
    ∧ resolveContacted (pre ++ ExchangeResult.completed resp :: post)
      = pre.length + 1 := by
  obtain ⟨h1, h2⟩ :=
    resolve_skip_transport pre (ExchangeResult.completed resp :: post) h
  obtain ⟨h3, _⟩ := resolve_skip_transport pre [ExchangeResult.completed resp] h
  refine ⟨?_, ?_, ?_⟩
  · rw [h1, h3]; simp [Resolve]
  · rw [h1]; simp [Resolve]
  · rw [h2]; simp [resolveContacted]

/-- C1 witness: one transport failure, then a completed success exchange,
then a further endpoint; the result comes from the completed exchange and
exactly two endpoints are contacted. -/
theorem resolve_failover_order_witness :
    Resolve [ExchangeResult.transportError,
             ExchangeResult.completed ⟨0, [DnsRecord.A "10.0.0.1"]⟩,
             ExchangeResult.completed ⟨3, []⟩]
      = Except.ok ["10.0.0.1"]
    ∧ resolveContacted [ExchangeResult.transportError,
             ExchangeResult.completed ⟨0, [DnsRecord.A "10.0.0.1"]⟩,
             ExchangeResult.completed ⟨3, []⟩] = 2 := by
  have h := resolve_failover_order [ExchangeResult.transportError]
      [ExchangeResult.completed ⟨3, []⟩] ⟨0, [DnsRecord.A "10.0.0.1"]⟩
      (by intro r hr; simpa using hr)
  refine ⟨?_, ?_⟩
  · have := h.2.1
    simpa [extractA] using this
  · have := h.2.2
    simp only [List.length_singleton] at this
    exact this

/-- C2: `Resolve` errs in exactly two ways, in one pass over the list.
It returns the all-resolvers-failed error iff every endpoint failed at the
transport level; it returns a DNS error with code `c` iff some completed
exchange exists, every endpoint before the first one failed at the transport
level, that first completed response has the non-success code `c`, and the
scan stopped right there; and it never contacts more endpoints than one pass
over the list allows. -/
theorem resolve_error_cases (rs : List ExchangeResult) :
    (Resolve rs = Except.error ResolveErr.allResolversFailed
      ↔ ∀ r ∈ rs, r = ExchangeResult.transportError)
    ∧ (∀ c, Resolve rs = Except.error (ResolveErr.dnsError c)
      ↔ ∃ pre resp post, rs = pre ++ ExchangeResult.completed resp :: post
          ∧ (∀ r ∈ pre, r = ExchangeResult.transportError)
          ∧ resp.rcode = c ∧ c ≠ 0
          ∧ resolveContacted rs = pre.length + 1)
    ∧ resolveContacted rs ≤ rs.length := by
  refine ⟨?_, ?_, resolveContacted_le rs⟩
  · constructor
    · intro hres
      induction rs with
      | nil => simp
      | cons a rest ih =>
        cases a with
        | transportError =>
          intro r hr
          rcases List.mem_cons.mp hr with h | h
          · simp [h]
          · exact ih (by simpa [Resolve] using hres) r h
        | completed resp =>
          by_cases h0 : resp.rcode = 0 <;> simp [Resolve, h0] at hres
    · exact resolve_all_transport rs
  · intro c
    constructor
    · intro hres
      induction rs with
      | nil => simp [Resolve] at hres
      | cons a rest ih =>
        cases a with
        | transportError =>
          obtain ⟨pre, resp, post, heq, hpre, hc, hc0, hcount⟩ :=
            ih (by simpa [Resolve] using hres)
          refine ⟨ExchangeResult.transportError :: pre, resp, post, by simp [heq],
            ?_, hc, hc0, ?_⟩
          · intro r hr
            rcases List.mem_cons.mp hr with h | h
            · exact h
            · exact hpre r h
          · simp [resolveContacted, hcount]
            omega
        | completed resp =>
          by_cases h0 : resp.rcode = 0
          · simp [Resolve, h0] at hres
          · simp [Resolve, h0] at hres
            exact ⟨[], resp, rest, by simp, by simp, by omega, by omega,
              by simp [resolveContacted]⟩
    · rintro ⟨pre, resp, post, heq, hpre, hc, hc0, _⟩
      subst heq
      have := (resolve_skip_transport pre (ExchangeResult.completed resp :: post) hpre).1
      rw [this]
      simp [Resolve, hc]
      intro h
      exact absurd (hc ▸ h) hc0

/-- C2 witness: a non-success response code at the first completed exchange,
and total transport failure, yield exactly the two errors. -/
theorem resolve_error_cases_witness :
    Resolve [ExchangeResult.transportError, ExchangeResult.transportError]
      = Except.error ResolveErr.allResolversFailed
    ∧ Resolve [ExchangeResult.completed ⟨3, []⟩, ExchangeResult.completed ⟨0, []⟩]
      = Except.error (ResolveErr.dnsError 3) := by
  constructor
  · exact (resolve_error_cases
        [ExchangeResult.transportError, ExchangeResult.transportError]).1.mpr
      (by intro r hr; simpa using hr)
  · exact ((resolve_error_cases
        [ExchangeResult.completed ⟨3, []⟩, ExchangeResult.completed ⟨0, []⟩]).2.1 3).mpr
      ⟨[], ⟨3, []⟩, [ExchangeResult.completed ⟨0, []⟩], by simp, by simp,
        rfl, by omega, by simp [resolveContacted]⟩

/-- Membership in the wildcard set after one map write. -/
theorem mem_insertIP (w : List String) (ip x : String) :
    x ∈ insertIP w ip ↔ x ∈ w ∨ x = ip := by
  unfold insertIP
  by_cases h : ip ∈ w
  · simp only [if_pos h]
    constructor
    · exact Or.inl
    · rintro (hx | rfl)
      · exact hx
      · exact h
  · simp [if_neg h]

/-- Membership in the wildcard set after the write loop over one answer. -/
theorem mem_addIPs (ips w : List String) (x : String) :
    x ∈ addIPs w ips ↔ x ∈ w ∨ x ∈ ips := by
  induction ips generalizing w with
  | nil => simp [addIPs]
  | cons a rest ih =>
    show x ∈ addIPs (insertIP w a) rest ↔ _
    rw [ih, mem_insertIP]
    simp only [List.mem_cons]
    tauto

/-- Membership after one probe: unchanged on a failed resolution, the union
with the returned addresses on a successful one. -/
theorem mem_probeStep (net : Network) (domain : String) (acc : List String)
    (sub ip : String) :
    ip ∈ probeStep net domain acc sub ↔
      ip ∈ acc ∨ ∃ ips, Resolve (net (sub ++ "." ++ domain)) = Except.ok ips
        ∧ ip ∈ ips := by
  unfold probeStep
  rcases hres : Resolve (net (sub ++ "." ++ domain)) with e | ips
  · simp
  · by_cases hlen : 0 < ips.length
    · simp [hlen, mem_addIPs]
    · have : ips = [] := by
        cases ips with
        | nil => rfl
        | cons a l => simp at hlen
      subst this
      simp

/-- Membership after the whole probe loop. -/
theorem mem_probeFold (net : Network) (domain : String) (labels w : List String)
    (ip : String) :
    ip ∈ labels.foldl (probeStep net domain) w ↔
      ip ∈ w ∨ ∃ sub ∈ labels, ∃ ips,
        Resolve (net (sub ++ "." ++ domain)) = Except.ok ips ∧ ip ∈ ips := by
  induction labels generalizing w with
  | nil => simp
  | cons a rest ih =>
    simp only [List.foldl_cons]
    rw [ih, mem_probeStep]
    simp only [List.exists_mem_cons_iff]
    exact or_assoc

/-- C7: `DetectWildcard` only ever adds entries — the input set is contained
in the output set — and, when wildcard checking is enabled, an address is in
the output set exactly when it was already present or some of the three probe
names (the time+pid random label and the two fixed decoys) resolved
successfully with that address among its results; a failed probe contributes
nothing, and a disabled check leaves the set untouched. -/
theorem detectWildcard_monotone_adds (wildcardCheck : Bool) (net : Network)
    (randLabel domain : String) (w : List String) :
    (∀ ip ∈ w, ip ∈ DetectWildcard wildcardCheck net randLabel domain w)
    ∧ (wildcardCheck = true → ∀ ip,
        ip ∈ DetectWildcard wildcardCheck net randLabel domain w ↔
          ip ∈ w ∨ ∃ sub ∈ probeLabels randLabel, ∃ ips,
            Resolve (net (sub ++ "." ++ domain)) = Except.ok ips ∧ ip ∈ ips)
    ∧ (wildcardCheck = false → DetectWildcard wildcardCheck net randLabel domain w = w) := by
  cases wildcardCheck
  · simp [DetectWildcard]
  · refine ⟨?_, ?_, by simp⟩
    · intro ip hip
      rw [show DetectWildcard true net randLabel domain w
            = (probeLabels randLabel).foldl (probeStep net domain) w from rfl,
        mem_probeFold]
      exact Or.inl hip
    · intro _ ip
      rw [show DetectWildcard true net randLabel domain w
            = (probeLabels randLabel).foldl (probeStep net domain) w from rfl,
        mem_probeFold]

/-- C7 witness: with a network answering the first decoy probe with
`203.0.113.9`, detection keeps the pre-existing entry and adds the probed
address. -/
theorem detectWildcard_monotone_adds_witness :
    "9.9.9.9" ∈ DetectWildcard true
        (fun q => if q = "probably-does-not-exist-123.example.com"
          then [ExchangeResult.completed ⟨0, [DnsRecord.A "203.0.113.9"]⟩] else [])
        "r" "example.com" ["9.9.9.9"]
    ∧ "203.0.113.9" ∈ DetectWildcard true
        (fun q => if q = "probably-does-not-exist-123.example.com"
          then [ExchangeResult.completed ⟨0, [DnsRecord.A "203.0.113.9"]⟩] else [])
        "r" "example.com" ["9.9.9.9"] := by
  constructor
  · exact (detectWildcard_monotone_adds true
      (fun q => if q = "probably-does-not-exist-123.example.com"
        then [ExchangeResult.completed ⟨0, [DnsRecord.A "203.0.113.9"]⟩] else [])
      "r" "example.com" ["9.9.9.9"]).1 "9.9.9.9" (by simp)
  · exact ((detectWildcard_monotone_adds true
      (fun q => if q = "probably-does-not-exist-123.example.com"
        then [ExchangeResult.completed ⟨0, [DnsRecord.A "203.0.113.9"]⟩] else [])
      "r" "example.com" ["9.9.9.9"]).2.1 rfl "203.0.113.9").mpr
      (Or.inr ⟨"probably-does-not-exist-123", by simp [probeLabels],
        ["203.0.113.9"], by rfl, by decide⟩)

/-- An empty address list is never flagged as a wildcard response, so a
successful resolution with zero addresses always emits the empty-bracket
line. -/
theorem processDomain_ok_empty (wildcardCheck : Bool) (w : List String)
    (net : Network) (domain : String)
    (hres : Resolve (net domain) = Except.ok []) :
    ProcessDomain wildcardCheck w net domain = some (domain ++ " []") := by
  unfold ProcessDomain
  rw [hres]
  have hwild : isWildcardResponse w [] = false := by
    unfold isWildcardResponse
    by_cases hw : w.length = 0 <;> simp [hw]
  simp only [hwild, Bool.and_false, if_false, Bool.false_eq_true]
  have : domain ++ " [" ++ String.intercalate ", " [] ++ "]" = domain ++ " []" := by
    show domain ++ " [" ++ "" ++ "]" = domain ++ " []"
    rw [String.append_assoc, String.append_assoc]
    rfl
  rw [this]

/-- C3: `isWildcardResponse` is true exactly when the wildcard set is
non-empty and some address of the list is in it; consequently, with wildcard
checking enabled, a name that resolves successfully to a list containing a
recorded wildcard address is filtered (no emission), and one resolving only
to addresses outside the set is emitted. -/
theorem isWildcardResponse_filters (w ips : List String) (net : Network)
    (domain ip0 : String) :
    (isWildcardResponse w ips = true ↔ w ≠ [] ∧ ∃ ip ∈ ips, ip ∈ w)
    ∧ (ip0 ∈ w → Resolve (net domain) = Except.ok ips → ip0 ∈ ips →
        ProcessDomain true w net domain = none)
    ∧ (Resolve (net domain) = Except.ok ips → (∀ ip ∈ ips, ip ∉ w) →
        ProcessDomain true w net domain
          = some (domain ++ " [" ++ String.intercalate ", " ips ++ "]")) := by
  have hiff : isWildcardResponse w ips = true ↔ w ≠ [] ∧ ∃ ip ∈ ips, ip ∈ w := by
    unfold isWildcardResponse
    by_cases hw : w.length = 0
    · have : w = [] := List.length_eq_zero.mp hw
      subst this
      simp
    · have hne : w ≠ [] := by
        intro h
        exact hw (by simp [h])
      simp [if_neg hw, hne, List.any_eq_true]
  refine ⟨hiff, ?_, ?_⟩
  · intro h0 hres hin
    unfold ProcessDomain
    rw [hres]
    have : isWildcardResponse w ips = true :=
      hiff.mpr ⟨by rintro rfl; exact absurd h0 (List.not_mem_nil ip0),
        ⟨ip0, hin, h0⟩⟩
    simp [this]
  · intro hres hout
    unfold ProcessDomain
    rw [hres]
    have : isWildcardResponse w ips = false := by
      rcases h : isWildcardResponse w ips
      · rfl
      · obtain ⟨_, ip, hip, hipw⟩ := hiff.mp h
        exact absurd hipw (hout ip hip)
    simp [this]

/-- C3 witness: with `203.0.113.9` recorded as a wildcard address, a name
resolving to it is filtered, and a name resolving to a distinct address is
not. -/
theorem isWildcardResponse_filters_witness :
    ProcessDomain true ["203.0.113.9"]
        (fun _ => [ExchangeResult.completed ⟨0, [DnsRecord.A "203.0.113.9"]⟩])
        "a.example.com" = none
    ∧ ProcessDomain true ["203.0.113.9"]
        (fun _ => [ExchangeResult.completed ⟨0, [DnsRecord.A "10.0.0.7"]⟩])
        "b.example.com" = some "b.example.com [10.0.0.7]" := by
  constructor
  · exact (isWildcardResponse_filters ["203.0.113.9"] ["203.0.113.9"]
      (fun _ => [ExchangeResult.completed ⟨0, [DnsRecord.A "203.0.113.9"]⟩])
      "a.example.com" "203.0.113.9").2.1 (by decide) (by rfl) (by decide)
  · exact (isWildcardResponse_filters ["203.0.113.9"] ["10.0.0.7"]
      (fun _ => [ExchangeResult.completed ⟨0, [DnsRecord.A "10.0.0.7"]⟩])
      "b.example.com" "203.0.113.9").2.2 (by rfl) (by decide)

/-- C4: `ProcessDomain` emits nothing on a resolution error; on success it
emits nothing when wildcard checking is enabled and the address list is
flagged, and otherwise exactly the line `"<name> [<ip1>, <ip2>, ...]"`; a
success with zero addresses always emits the empty-bracket line. -/
theorem processDomain_emission (wildcardCheck : Bool) (w : List String)
    (net : Network) (domain : String) :
    (∀ e, Resolve (net domain) = Except.error e →
        ProcessDomain wildcardCheck w net domain = none)
    ∧ (∀ ips, Resolve (net domain) = Except.ok ips →
        ProcessDomain wildcardCheck w net domain =
          if wildcardCheck && isWildcardResponse w ips then none
          else some (domain ++ " [" ++ String.intercalate ", " ips ++ "]"))
    ∧ (Resolve (net domain) = Except.ok [] →
        ProcessDomain wildcardCheck w net domain = some (domain ++ " []")) := by
  refine ⟨?_, ?_, ?_⟩
  · intro e hres
    unfold ProcessDomain
    rw [hres]
  · intro ips hres
    unfold ProcessDomain
    rw [hres]
  · exact processDomain_ok_empty wildcardCheck w net domain

/-- C4 witness: a transport-exhausted name emits nothing, a success with two
addresses emits the joined line, and a success with zero addresses emits the
empty-bracket line. -/
theorem processDomain_emission_witness :
    ProcessDomain false [] (fun _ => [ExchangeResult.transportError]) "a.example.com" = none
    ∧ ProcessDomain false []
        (fun _ => [ExchangeResult.completed
          ⟨0, [DnsRecord.A "10.0.0.1", DnsRecord.A "10.0.0.2"]⟩])
        "b.example.com" = some "b.example.com [10.0.0.1, 10.0.0.2]"
    ∧ ProcessDomain false [] (fun _ => [ExchangeResult.completed ⟨0, []⟩])
        "c.example.com" = some "c.example.com []" := by
  refine ⟨?_, ?_, ?_⟩
  · exact (processDomain_emission false []
      (fun _ => [ExchangeResult.transportError]) "a.example.com").1
      ResolveErr.allResolversFailed (by rfl)
  · have h := (processDomain_emission false []
      (fun _ => [ExchangeResult.completed
        ⟨0, [DnsRecord.A "10.0.0.1", DnsRecord.A "10.0.0.2"]⟩])
      "b.example.com").2.1 ["10.0.0.1", "10.0.0.2"] (by rfl)
    rw [h]
    rfl
  · exact (processDomain_emission false []
      (fun _ => [ExchangeResult.completed ⟨0, []⟩]) "c.example.com").2.2 (by rfl)

/-- The dispatched names of a line list, unfolded one line at a time. -/
theorem dispatchedNames_cons (line : String) (rest : List String) :
    dispatchedNames (line :: rest) =
      if trimString line = "" then dispatchedNames rest
      else trimString line :: dispatchedNames rest := by
  unfold dispatchedNames
  by_cases hb : trimString line = "" <;> simp [hb]

/-- A blank line is skipped by the scanner loop without dispatching. -/
theorem enumStep_blank (wildcardCheck : Bool) (net : Network)
    (randLabel line : String) (st : EnumState) (hb : trimString line = "") :
    enumStep wildcardCheck net randLabel st line = st := by
  unfold enumStep
  simp [hb]

/-- A non-blank line dispatches exactly one worker, which appends at most one
emitted line. -/
theorem enumStep_nonblank (wildcardCheck : Bool) (net : Network)
    (randLabel line : String) (st : EnumState) (hb : ¬trimString line = "") :
    (enumStep wildcardCheck net randLabel st line).emitted = st.emitted
    ∨ ∃ r, ProcessDomain wildcardCheck
            (enumWSet wildcardCheck net randLabel st.w (trimString line)) net (trimString line)
          = some r
        ∧ (enumStep wildcardCheck net randLabel st line).emitted
          = st.emitted ++ [r] := by
  unfold enumStep
  simp only [if_neg hb]
  rcases hP : ProcessDomain wildcardCheck
      (enumWSet wildcardCheck net randLabel st.w (trimString line)) net (trimString line) with _ | r
  · exact Or.inl (by simp [hP])
  · exact Or.inr ⟨r, rfl, by simp [hP]⟩

/-- Invariant of the scanner loop: emissions only grow, by at most one per
dispatched name, and every new emission is the output of one worker run on a
dispatched name. -/
theorem enum_foldl_spec (wildcardCheck : Bool) (net : Network)
    (randLabel : String) (lines : List String) :
    ∀ st : EnumState,
      (lines.foldl (enumStep wildcardCheck net randLabel) st).emitted.length
        ≤ st.emitted.length + (dispatchedNames lines).length
      ∧ ∀ res ∈ (lines.foldl (enumStep wildcardCheck net randLabel) st).emitted,
          res ∈ st.emitted ∨ ∃ d ∈ dispatchedNames lines, ∃ w1,
            ProcessDomain wildcardCheck w1 net d = some res := by
  induction lines with
  | nil =>
    intro st
    refine ⟨by simp, ?_⟩
    intro res h
    exact Or.inl h
  | cons line rest ih =>
    intro st
    simp only [List.foldl_cons]
    by_cases hb : trimString line = ""
    · rw [enumStep_blank wildcardCheck net randLabel line st hb,
        dispatchedNames_cons, if_pos hb]
      exact ih st
    · rw [dispatchedNames_cons, if_neg hb]
      obtain ⟨ihLen, ihMem⟩ := ih (enumStep wildcardCheck net randLabel st line)
      rcases enumStep_nonblank wildcardCheck net randLabel line st hb with
        hsame | ⟨r, hr, happ⟩
      · refine ⟨?_, ?_⟩
        · calc _ ≤ (enumStep wildcardCheck net randLabel st line).emitted.length
                    + (dispatchedNames rest).length := ihLen
            _ ≤ _ := by rw [hsame, List.length_cons]; omega
        · intro res hres
          rcases ihMem res hres with h | ⟨d, hd, w1, hw1⟩
          · exact Or.inl (hsame ▸ h)
          · exact Or.inr ⟨d, List.mem_cons_of_mem _ hd, w1, hw1⟩
      · refine ⟨?_, ?_⟩
        · calc _ ≤ (enumStep wildcardCheck net randLabel st line).emitted.length
                    + (dispatchedNames rest).length := ihLen
            _ ≤ _ := by
              rw [happ, List.length_cons]
              simp only [List.length_append, List.length_singleton]
              omega
        · intro res hres
          rcases ihMem res hres with h | ⟨d, hd, w1, hw1⟩
          · rw [happ] at h
            rcases List.mem_append.mp h with h | h
            · exact Or.inl h
            · have : res = r := by simpa using h
              subst this
              exact Or.inr ⟨trimString line, List.mem_cons_self _ _,
                enumWSet wildcardCheck net randLabel st.w (trimString line), hr⟩
          · exact Or.inr ⟨d, List.mem_cons_of_mem _ hd, w1, hw1⟩

/-- A blank or comment line leaves the loaded resolver list unchanged. -/
theorem resolverLineStep_skip (resolvers : List String) (line : String)
    (h : trimString line = "" ∨ startsWithHash (trimString line) = true) :
    resolverLineStep resolvers line = resolvers := by
  unfold resolverLineStep
  rcases h with h | h <;> simp [h]

/-- A kept line appends its normalized entry. -/
theorem resolverLineStep_keep (resolvers : List String) (line : String)
    (h1 : ¬trimString line = "") (h2 : ¬startsWithHash (trimString line) = true) :
    resolverLineStep resolvers line = resolvers ++
      [if containsColon (trimString line) then trimString line
       else trimString line ++ ":53"] := by
  unfold resolverLineStep
  simp [h1, h2]

/-- The loader loop, started from any accumulator, appends the declarative
normalization filter-map over the trimmed lines. -/
theorem loadResolvers_foldl (lines : List String) :
    ∀ acc : List String,
      lines.foldl resolverLineStep acc
        = acc ++ (lines.map trimString).filterMap normalizeEntry := by
  induction lines with
  | nil => intro acc; simp
  | cons a rest ih =>
    intro acc
    simp only [List.foldl_cons, List.map_cons, List.filterMap_cons]
    by_cases hb : trimString a = ""
    · rw [resolverLineStep_skip acc a (Or.inl hb), ih]
      have hn : normalizeEntry (trimString a) = none := by
        unfold normalizeEntry
        simp [hb]
      rw [hn]
    · by_cases hp : startsWithHash (trimString a) = true
      · rw [resolverLineStep_skip acc a (Or.inr hp), ih]
        have hn : normalizeEntry (trimString a) = none := by
          unfold normalizeEntry
          simp [hb, hp]
        rw [hn]
      · rw [resolverLineStep_keep acc a hb hp, ih]
        have hn : normalizeEntry (trimString a)
            = some (if containsColon (trimString a) then trimString a
                    else trimString a ++ ":53") := by
          unfold normalizeEntry
          simp [hb, hp]
        rw [hn, List.append_assoc]
        rfl

/-- The wordlist loop, started from any accumulator, appends the qualified
non-blank trimmed lines. -/
theorem bruteforceNames_foldl (lines : List String) (domain : String) :
    ∀ acc : List String,
      lines.foldl (bruteStep domain) acc
        = acc ++ ((lines.map trimString).filter (fun s => s ≠ "")).map
            (fun s => s ++ "." ++ domain) := by
  induction lines with
  | nil => intro acc; simp
  | cons a rest ih =>
    intro acc
    simp only [List.foldl_cons, List.map_cons, List.filter_cons]
    by_cases hb : trimString a = ""
    · have hstep : bruteStep domain acc a = acc := by
        unfold bruteStep
        simp [hb]
      rw [hstep, ih]
      simp [hb]
    · have hstep : bruteStep domain acc a
          = acc ++ [trimString a ++ "." ++ domain] := by
        unfold bruteStep
        simp [hb]
      rw [hstep, ih]
      simp [hb, List.append_assoc]

/-- The brute-force dispatched names, unfolded one wordlist line at a time. -/
theorem bruteforceNames_cons (a : String) (rest : List String) (domain : String) :
    bruteforceNames (a :: rest) domain =
      if trimString a = "" then bruteforceNames rest domain
      else (trimString a ++ "." ++ domain) :: bruteforceNames rest domain := by
  show (a :: rest).foldl (bruteStep domain) [] = _
  rw [bruteforceNames_foldl (a :: rest) domain [],
    show bruteforceNames rest domain = rest.foldl (bruteStep domain) [] from rfl,
    bruteforceNames_foldl rest domain []]
  by_cases hb : trimString a = "" <;> simp [hb]

/-- A blank wordlist line is skipped by the brute-force loop without
dispatching. -/
theorem bruteforceStep_blank (wildcardCheck : Bool) (w : List String)
    (net : Network) (domain line : String) (emitted : List String)
    (hb : trimString line = "") :
    bruteforceStep wildcardCheck w net domain emitted line = emitted := by
  unfold bruteforceStep
  simp [hb]

/-- A non-blank wordlist line dispatches exactly one worker for the
qualified name, which appends at most one emitted line. -/
theorem bruteforceStep_nonblank (wildcardCheck : Bool) (w : List String)
    (net : Network) (domain line : String) (emitted : List String)
    (hb : ¬trimString line = "") :
    bruteforceStep wildcardCheck w net domain emitted line = emitted
    ∨ ∃ r, ProcessDomain wildcardCheck w net (trimString line ++ "." ++ domain)
          = some r
        ∧ bruteforceStep wildcardCheck w net domain emitted line
          = emitted ++ [r] := by
  unfold bruteforceStep
  simp only [if_neg hb]
  rcases hP : ProcessDomain wildcardCheck w net
      (trimString line ++ "." ++ domain) with _ | r
  · exact Or.inl (by simp [hP])
  · exact Or.inr ⟨r, rfl, by simp [hP]⟩

/-- Invariant of the brute-force dispatch loop: emissions only grow, by at
most one per dispatched name, and every new emission is the output of one
worker run on a dispatched name. -/
theorem brute_foldl_spec (wildcardCheck : Bool) (w : List String)
    (net : Network) (domain : String) (lines : List String) :
    ∀ acc : List String,
      (lines.foldl (bruteforceStep wildcardCheck w net domain) acc).length
        ≤ acc.length + (bruteforceNames lines domain).length
      ∧ ∀ res ∈ lines.foldl (bruteforceStep wildcardCheck w net domain) acc,
          res ∈ acc ∨ ∃ d ∈ bruteforceNames lines domain,
            ProcessDomain wildcardCheck w net d = some res := by
  induction lines with
  | nil =>
    intro acc
    refine ⟨by simp, ?_⟩
    intro res h
    exact Or.inl h
  | cons line rest ih =>
    intro acc
    simp only [List.foldl_cons]
    by_cases hb : trimString line = ""
    · rw [bruteforceStep_blank wildcardCheck w net domain line acc hb,
        bruteforceNames_cons, if_pos hb]
      exact ih acc
    · rw [bruteforceNames_cons, if_neg hb]
      obtain ⟨ihLen, ihMem⟩ :=
        ih (bruteforceStep wildcardCheck w net domain acc line)
      rcases bruteforceStep_nonblank wildcardCheck w net domain line acc hb with
        hsame | ⟨r, hr, happ⟩
      · refine ⟨?_, ?_⟩
        · calc _ ≤ (bruteforceStep wildcardCheck w net domain acc line).length
                    + (bruteforceNames rest domain).length := ihLen
            _ ≤ _ := by rw [hsame, List.length_cons]; omega
        · intro res hres
          rcases ihMem res hres with h | ⟨d, hd, hw⟩
          · exact Or.inl (hsame ▸ h)
          · exact Or.inr ⟨d, List.mem_cons_of_mem _ hd, hw⟩
      · refine ⟨?_, ?_⟩
        · calc _ ≤ (bruteforceStep wildcardCheck w net domain acc line).length
                    + (bruteforceNames rest domain).length := ihLen
            _ ≤ _ := by
              rw [happ, List.length_cons]
              simp only [List.length_append, List.length_singleton]
              omega
        · intro res hres
          rcases ihMem res hres with h | ⟨d, hd, hw⟩
          · rw [happ] at h
            rcases List.mem_append.mp h with h | h
            · exact Or.inl h
            · have : res = r := by simpa using h
              subst this
              exact Or.inr ⟨trimString line ++ "." ++ domain,
                List.mem_cons_self _ _, hr⟩
          · exact Or.inr ⟨d, List.mem_cons_of_mem _ hd, hw⟩

/-- C5: in either mode, each dispatched Candidate Name produces at most one
result line (each worker's single possible channel send is its `Option`
result) and every emitted line is the output of one worker run on a name
that was dispatched — no duplicate emission, no result for a name never
dispatched. The streaming loop's emissions number at most its dispatched
names and trace back to them; the brute-force loop's emissions number at
most its dispatched names and trace back to them under the wildcard set of
the single up-front probe. -/
theorem dispatch_at_most_one (wildcardCheck : Bool) (net : Network)
    (randLabel domain : String) (lines wlines : List String) :
    ((EnumerateFromReader wildcardCheck net randLabel lines).emitted.length
      ≤ (dispatchedNames lines).length
    ∧ ∀ res ∈ (EnumerateFromReader wildcardCheck net randLabel lines).emitted,
        ∃ d ∈ dispatchedNames lines, ∃ w1,
          ProcessDomain wildcardCheck w1 net d = some res)
    ∧ ((Bruteforce wildcardCheck net randLabel domain wlines).length
      ≤ (bruteforceNames wlines domain).length
    ∧ ∀ res ∈ Bruteforce wildcardCheck net randLabel domain wlines,
        ∃ d ∈ bruteforceNames wlines domain,
          ProcessDomain wildcardCheck
            (DetectWildcard wildcardCheck net randLabel domain []) net d
          = some res) := by
  constructor
  · obtain ⟨hlen, hmem⟩ :=
      enum_foldl_spec wildcardCheck net randLabel lines ⟨[], []⟩
    refine ⟨by simpa using hlen, ?_⟩
    intro res hres
    rcases hmem res hres with h | h
    · exact absurd h (List.not_mem_nil res)
    · exact h
  · obtain ⟨hlen, hmem⟩ := brute_foldl_spec wildcardCheck
      (DetectWildcard wildcardCheck net randLabel domain []) net domain wlines []
    refine ⟨by simpa using hlen, ?_⟩
    intro res hres
    rcases hmem res hres with h | h
    · exact absurd h (List.not_mem_nil res)
    · exact h

/-- C5 witness: in streaming mode, two real names and a blank line emit no
more lines than the two dispatched names; in brute-force mode, a two-word
list with a blank line emits no more lines than its two dispatched names. -/
theorem dispatch_at_most_one_witness :
    (EnumerateFromReader false
      (fun q => if q = "a.example.com"
        then [ExchangeResult.completed ⟨0, [DnsRecord.A "10.0.0.1"]⟩]
        else [ExchangeResult.transportError])
      "r" ["a.example.com", "", "b.example.com"]).emitted.length
    ≤ (dispatchedNames ["a.example.com", "", "b.example.com"]).length
    ∧ (Bruteforce false
      (fun q => if q = "www.example.com"
        then [ExchangeResult.completed ⟨0, [DnsRecord.A "10.0.0.2"]⟩]
        else [ExchangeResult.completed ⟨3, []⟩])
      "r" "example.com" ["www", "", "api"]).length
    ≤ (bruteforceNames ["www", "", "api"] "example.com").length := by
  constructor
  · exact (dispatch_at_most_one false
      (fun q => if q = "a.example.com"
        then [ExchangeResult.completed ⟨0, [DnsRecord.A "10.0.0.1"]⟩]
        else [ExchangeResult.transportError])
      "r" "example.com" ["a.example.com", "", "b.example.com"] []).1.1
  · exact (dispatch_at_most_one false
      (fun q => if q = "www.example.com"
        then [ExchangeResult.completed ⟨0, [DnsRecord.A "10.0.0.2"]⟩]
        else [ExchangeResult.completed ⟨3, []⟩])
      "r" "example.com" [] ["www", "", "api"]).2.1

/-- Appending the default port always yields an entry with a colon. -/
theorem containsColon_append_port (r : String) :
    containsColon (r ++ ":53") = true := by
  unfold containsColon
  rw [String.data_append]
  simp

/-- C8: the resolver-list loader keeps, in file order, every trimmed line
that is neither blank nor a `#` comment, appending `":53"` exactly to entries
with no colon (so every loaded endpoint carries a port separator), while the
brute-force wordlist loop skips only blank lines — a `#` line is dispatched
like any other word. -/
theorem loaders_spec (lines wlines : List String) (domain : String) :
    LoadResolversFromFileLines lines
      = (lines.map trimString).filterMap normalizeEntry
    ∧ (∀ res ∈ LoadResolversFromFileLines lines, containsColon res = true)
    ∧ bruteforceNames wlines domain
      = ((wlines.map trimString).filter (fun s => s ≠ "")).map
          (fun s => s ++ "." ++ domain) := by
  have h1 : LoadResolversFromFileLines lines
      = (lines.map trimString).filterMap normalizeEntry := by
    have h := loadResolvers_foldl lines []
    rw [List.nil_append] at h
    exact h
  refine ⟨h1, ?_, ?_⟩
  · intro res hres
    rw [h1] at hres
    rcases List.mem_filterMap.mp hres with ⟨r, _, hf⟩
    unfold normalizeEntry at hf
    split at hf
    · injection hf with hf
      subst hf
      by_cases hc : containsColon r = true
      · simp [hc]
      · simp only [hc, if_false]
        exact containsColon_append_port r
    · cases hf
  · have h2 := bruteforceNames_foldl wlines domain []
    rw [List.nil_append] at h2
    exact h2

/-- C8 witness: a comment and a blank line are dropped and a bare host gains
port 53 in the resolver loader, while the wordlist loop keeps a `#` word. -/
theorem loaders_spec_witness :
    LoadResolversFromFileLines ["# comment", "", " 8.8.8.8 ", "9.9.9.9:5353"]
      = ["8.8.8.8:53", "9.9.9.9:5353"]
    ∧ bruteforceNames ["#admin", "", " www "] "example.com"
      = ["#admin.example.com", "www.example.com"] := by
  have h := loaders_spec ["# comment", "", " 8.8.8.8 ", "9.9.9.9:5353"]
      ["#admin", "", " www "] "example.com"
  exact ⟨by rw [h.1]; decide, by rw [h.2.2]; decide⟩

/-- A-record extraction is the order-preserving filter-map of the answer
section. -/
theorem extractA_eq_filterMap (ans : List DnsRecord) :
    extractA ans = ans.filterMap (fun r =>
      match r with
      | DnsRecord.A ip => some ip
      | DnsRecord.Other => none) := by
  induction ans with
  | nil => rfl
  | cons a rest ih => cases a <;> simp [extractA, ih]

/-- C10: on a success response, `Resolve` returns exactly the A-record
addresses of the answer section, in answer order; non-A answer records
contribute nothing, so a success carrying only non-A records yields the
empty address list with no error, which the worker emits as the
empty-bracket line. -/
theorem resolve_success_answers (pre post : List ExchangeResult)
    (resp : DnsResponse) (net : Network) (domain : String)
    (wildcardCheck : Bool) (w : List String)
    (hpre : ∀ r ∈ pre, r = ExchangeResult.transportError)
    (h0 : resp.rcode = 0) :
    Resolve (pre ++ ExchangeResult.completed resp :: post)
      = Except.ok (extractA resp.answer)
    ∧ extractA resp.answer = resp.answer.filterMap (fun r =>
        match r with
        | DnsRecord.A ip => some ip
        | DnsRecord.Other => none)
    ∧ ((∀ r ∈ resp.answer, r = DnsRecord.Other) → extractA resp.answer = [])
    ∧ (net domain = pre ++ ExchangeResult.completed resp :: post →
        (∀ r ∈ resp.answer, r = DnsRecord.Other) →
        ProcessDomain wildcardCheck w net domain = some (domain ++ " []")) := by
  have hres : Resolve (pre ++ ExchangeResult.completed resp :: post)
      = Except.ok (extractA resp.answer) := by
    rw [(resolve_skip_transport pre (ExchangeResult.completed resp :: post) hpre).1]
    simp [Resolve, h0]
  have hempty : (∀ r ∈ resp.answer, r = DnsRecord.Other) →
      extractA resp.answer = [] := by
    intro hall
    rw [extractA_eq_filterMap]
    rw [List.filterMap_eq_nil_iff]
    intro r hr
    rw [hall r hr]
  refine ⟨hres, extractA_eq_filterMap resp.answer, hempty, ?_⟩
  intro hnet hall
  exact processDomain_ok_empty wildcardCheck w net domain
    (by rw [hnet, hres, hempty hall])

/-- C10 witness: a success answer holding one non-A record and one A record
yields only the A address; a success answer of only non-A records yields the
empty-bracket emission. -/
theorem resolve_success_answers_witness :
    Resolve [ExchangeResult.completed
        ⟨0, [DnsRecord.Other, DnsRecord.A "10.0.0.5"]⟩]
      = Except.ok ["10.0.0.5"]
    ∧ ProcessDomain false []
        (fun _ => [ExchangeResult.completed ⟨0, [DnsRecord.Other]⟩])
        "cname.example.com" = some "cname.example.com []" := by
  constructor
  · have h := (resolve_success_answers [] []
      ⟨0, [DnsRecord.Other, DnsRecord.A "10.0.0.5"]⟩
      (fun _ => []) "x" false [] (by intro r hr; cases hr) rfl).1
    simpa [extractA] using h
  · exact (resolve_success_answers [] [] ⟨0, [DnsRecord.Other]⟩
      (fun _ => [ExchangeResult.completed ⟨0, [DnsRecord.Other]⟩])
      "cname.example.com" false [] (by intro r hr; cases hr) rfl).2.2.2
      (by rfl) (by intro r hr; simpa using hr)

/-- C6 counterexample: a run with a readable default resolver list, a domain,
a wordlist flag, wildcard checking on, and an unreadable wordlist file exits
with status 0 — not non-zero — and only after three wildcard-probe
resolutions have already run, refuting the claim that every fatal
configuration error (including an unreadable wordlist) terminates the
process non-zero before any resolution. -/
theorem main_wordlist_unreadable_exits_zero :
    mainRun ⟨false, none, "8.8.8.8:53,1.1.1.1:53", false, true, "example.com",
      true, FileRead.unreadable, true, false, [], fun _ => [], "r"⟩
    = ⟨0, true, 3⟩ := by
  decide

/-- C6 (amended): with the version flag unset, an unreadable resolver file
and an empty loaded resolver list are each reported to the error stream and
terminate the process with exit status 1 before any resolution; an
unreadable wordlist file in brute-force mode is reported to the error
stream, but the process then exits with status 0, and the wildcard probes
(three resolutions when checking is enabled) have already run before the
wordlist is opened. -/
theorem main_fatal_config (env : MainEnv) (hv : env.versionFlag = false) :
    (env.resolverFile = some FileRead.unreadable → mainRun env = ⟨1, true, 0⟩)
    ∧ (∀ resolvers, loadedResolvers env = some resolvers →
        resolvers.length = 0 → mainRun env = ⟨1, true, 0⟩)
    ∧ (∀ resolvers, loadedResolvers env = some resolvers →
        resolvers.length ≠ 0 →
        (env.outputFileGiven && !env.outputFileOpens) = false →
        env.domainFlag ≠ "" → env.wordlistGiven = true →
        env.wordlist = FileRead.unreadable →
        mainRun env = ⟨0, true, if env.wildcardCheck then 3 else 0⟩) := by
  refine ⟨?_, ?_, ?_⟩
  · intro hr
    have hload : loadedResolvers env = none := by
      unfold loadedResolvers
      rw [hr]
    unfold mainRun
    rw [hv, hload]
    simp
  · intro resolvers hres hlen
    unfold mainRun
    rw [hv, hres]
    simp [hlen]
  · intro resolvers hres hlen hout hd hw hwl
    unfold mainRun
    rw [hv, hres, hout, hwl]
    simp [hlen, hd, hw, probeLabels]

/-- C6 witness: the two genuinely fatal configuration errors at concrete
inputs — an unreadable resolver file, and a resolver file whose lines load
to an empty list — both exit 1 with an error report and zero resolutions. -/
theorem main_fatal_config_witness :
    mainRun ⟨false, some FileRead.unreadable, "", false, true, "", false,
      FileRead.lines [], true, false, [], fun _ => [], "r"⟩ = ⟨1, true, 0⟩
    ∧ mainRun ⟨false, some (FileRead.lines ["# only a comment"]), "", false,
      true, "", false, FileRead.lines [], true, false, [], fun _ => [], "r"⟩
      = ⟨1, true, 0⟩ := by
  constructor
  · exact (main_fatal_config ⟨false, some FileRead.unreadable, "", false,
      true, "", false, FileRead.lines [], true, false, [], fun _ => [], "r"⟩
      rfl).1 rfl
  · exact (main_fatal_config ⟨false, some (FileRead.lines ["# only a comment"]),
      "", false, true, "", false, FileRead.lines [], true, false, [],
      fun _ => [], "r"⟩ rfl).2.1 (LoadResolversFromFileLines ["# only a comment"])
      rfl (by decide)

end Dnsaq
